import Mathlib

/-!
Verification of the entity-resolution and merge engine of
`tools/update_conferences.py` (conference-catalog updater).

The Python source is shallowly embedded: each Python helper is translated
into an executable Lean function over `List Char` / `String`, JSON-ish
dictionary entries are association lists from `String` to a value type,
and the stateful resolution loop is an explicit fold over a state record.

Modelling conventions (stated once here):
* Python `str` operations are modelled over Unicode code points, with the
  ASCII interpretation of the character classes the script actually uses:
  `\s` = space, tab, newline, carriage return, vertical tab, form feed;
  `\w` = ASCII letters, digits, underscore; `\d` = ASCII digits;
  `str.lower` = ASCII lowercasing.  All catalog data handled by the script
  is ASCII where these classes matter.
* Intermediate strings fed to the subject/key regexes have been
  whitespace-collapsed by `_norm_space` first, so they contain no newline;
  the `re` newline subtleties of `.` and `$` therefore cannot fire and are
  not modelled.
* Scanning `re.sub` rewrites are modelled with an explicit fuel parameter
  equal to the input length (each step consumes at least one character, so
  the fuel never runs out on the actual argument).
-/

namespace ConfTrack

/-- Python `\s` on the ASCII range (also the character set of `str.strip`). -/
def isWsChar (c : Char) : Bool :=
  c = ' ' || c = '\t' || c = '\n' || c = '\r' || c = '\x0b' || c = '\x0c'

/-- Python `\w` on the ASCII range. -/
def isWordChar (c : Char) : Bool :=
  (('a' ≤ c && c ≤ 'z') || ('A' ≤ c && c ≤ 'Z') || ('0' ≤ c && c ≤ '9') || c = '_')

/-- Python `\d` on the ASCII range. -/
def isDigitChar (c : Char) : Bool := '0' ≤ c && c ≤ '9'

/-- ASCII lowercasing, as applied by `str.lower` on the script's data. -/
def lowerChar (c : Char) : Char := c.toLower

def lowerStr (s : String) : String := ⟨s.data.map lowerChar⟩

/-- `str.strip()` from the left. -/
def dropWs (l : List Char) : List Char := l.dropWhile (isWsChar ·)

/-- `str.strip()` from the right. -/
def trimRight (l : List Char) : List Char := ((l.reverse.dropWhile (isWsChar ·)).reverse)

/-- `str.strip()`: trim whitespace from both ends. -/
def trimWs (l : List Char) : List Char := trimRight (dropWs l)

/-- `re.sub(r"\s+", " ", s)`: replace each maximal whitespace run by one
space.  The flag records whether the previous character was whitespace. -/
def collapseWs : Bool → List Char → List Char
  | _, [] => []
  | prevWs, c :: cs =>
    if isWsChar c then
      (if prevWs then collapseWs true cs else ' ' :: collapseWs true cs)
    else c :: collapseWs false cs

/-- `_norm_space` on char lists: strip, collapse `\s+` runs to one space,
strip again (`_safe_str` strips before the `re.sub`, `.strip()` after). -/
def normSpaceL (l : List Char) : List Char := trimWs (collapseWs false (trimWs l))

/-- `_norm_space(s)` = `re.sub(r"\s+", " ", _safe_str(s)).strip()`. -/
def norm_space (s : String) : String := ⟨normSpaceL s.data⟩

/-- `str.strip` on strings (the string part of `_safe_str`). -/
def pyStrip (s : String) : String := ⟨trimWs s.data⟩

/-! ### Idempotence infrastructure for `_norm_space`

The canonical shape of a `_norm_space` output: every whitespace character
is a plain space, no two adjacent whitespace characters, and no leading or
trailing whitespace. -/

/-- Predicate for "no adjacent whitespace pair". -/
def NoWsPair (a b : Char) : Prop := ¬(isWsChar a = true ∧ isWsChar b = true)

/-- All whitespace characters are `' '` and no two are adjacent. -/
def CollapsedWs (l : List Char) : Prop :=
  (∀ c ∈ l, isWsChar c = true → c = ' ') ∧ l.Chain' NoWsPair

/-- Whatever the head of `l` is, it is not whitespace. -/
def HeadOk (l : List Char) : Prop := ∀ c, l.head? = some c → isWsChar c = false

/-- Whatever the last element of `l` is, it is not whitespace. -/
def LastOk (l : List Char) : Prop := ∀ c, l.getLast? = some c → isWsChar c = false

/-! ### JSON-ish values and entries

The script passes around `Dict[str, Any]` records whose values are strings,
lists of strings, or absent/None.  `Val` models that value space; an
`Entry` is a Python dict modelled as an insertion-ordered association list
with unique keys. -/

inductive Val where
  | vStr (s : String)
  | vList (xs : List String)
  | vNone
deriving DecidableEq, Repr

open Val

/-- Python `str(xs)` for a list of strings (quote-escaping corner cases of
`repr` are outside the data handled by the script and not modelled). -/
def pyReprList (xs : List String) : String :=
  "[" ++ String.intercalate ", " (xs.map (fun s => "'" ++ s ++ "'")) ++ "]"

/-- `_safe_str`: `""` for `None`, else `str(x).strip()`. -/
def safe_str (v : Val) : String :=
  match v with
  | vNone => ""
  | vStr s => pyStrip s
  | vList xs => pyStrip (pyReprList xs)

/-- `_norm_space` applied to an arbitrary value (it calls `_safe_str`). -/
def norm_space_val (v : Val) : String := ⟨normSpaceL (safe_str v).data⟩

/-- A Python dict: insertion-ordered association list. -/
abbrev Entry := List (String × Val)

/-- First-match lookup (dict keys are unique, so this is dict access). -/
def lookupVal : Entry → String → Option Val
  | [], _ => none
  | (k', v) :: rest, k => if k' = k then some v else lookupVal rest k

/-- Python `entry.get(k, d)`. -/
def Entry.getD (e : Entry) (k : String) (d : Val) : Val := (lookupVal e k).getD d

/-! ### `canonicalize_subject` -/

/-- Match `^CCF\s+\w+` case-insensitively; return the remainder after the
word run.  The character classes `\s` and `\w` are disjoint and followed by
a literal, so the greedy regex match is deterministic. -/
def matchCCFHead (l : List Char) : Option (List Char) :=
  match l with
  | c1 :: c2 :: c3 :: rest =>
    if lowerChar c1 = 'c' ∧ lowerChar c2 = 'c' ∧ lowerChar c3 = 'f' then
      let wsRun := rest.takeWhile (isWsChar ·)
      if wsRun = [] then none
      else
        let r1 := rest.dropWhile (isWsChar ·)
        let wordRun := r1.takeWhile (isWordChar ·)
        if wordRun = [] then none else some (r1.dropWhile (isWordChar ·))
    else none
  | _ => none

/-- `re.match(r"^CCF\s+\w+", s, re.IGNORECASE)` succeeds. -/
def startsCCF (l : List Char) : Bool := (matchCCFHead l).isSome

/-- Group 1 of `re.match(r"^CCF\s+\w+\s*\((.+)\)$", s, re.IGNORECASE)`:
after the head, optional whitespace, `(`, then a greedy nonempty run of
non-newline characters up to a final `)` that ends the string. -/
def rule1Content (l : List Char) : Option (List Char) :=
  match matchCCFHead l with
  | none => none
  | some rest =>
    match rest.dropWhile (isWsChar ·) with
    | '(' :: inner =>
      let content := inner.dropLast
      if inner.getLast? = some ')' ∧ content ≠ [] ∧ content.all (· ≠ '\n') then
        some content
      else none
    | _ => none

/-- Group 1 of `re.search(r"\(([^()]+)\)\s*$", s)`: the unique parenthesized
paren-free run whose closing `)` is followed only by trailing whitespace. -/
def rule1bContent (l : List Char) : Option (List Char) :=
  match l.reverse.dropWhile (isWsChar ·) with
  | ')' :: rest =>
    let contentRev := rest.takeWhile (fun c => c ≠ '(' && c ≠ ')')
    match rest.dropWhile (fun c => c ≠ '(' && c ≠ ')') with
    | '(' :: _ => if contentRev ≠ [] then some contentRev.reverse else none
    | _ => none
  | _ => none

/-- Rules (2) and (3): the fixed label rewrites, applied sequentially. -/
def applyRules23 (s : String) : String :=
  let s1 :=
    if lowerStr s = "wireless & communication" ∨ lowerStr s = "wireless and communication"
    then "Wireless/Communication" else s
  let s2 :=
    if lowerStr s1 = "networking & systems" ∨ lowerStr s1 = "networking and systems" ∨
        lowerStr s1 = "networks and systems"
    then "Network System" else s1
  if lowerStr s2 = "network system" then "Network System" else s2

/-- Rule (1): rewrite to the parenthetical content on a full
`^CCF\s+\w+\s*\((.+)\)$` match. -/
def stage1 (s : String) : String :=
  match rule1Content s.data with
  | some c => norm_space ⟨c⟩
  | none => s

/-- Rule (1), second form: trailing parenthetical of a `CCF`-prefixed
label. -/
def stage1b (s : String) : String :=
  if startsCCF s.data then
    match rule1bContent s.data with
    | some c => norm_space ⟨c⟩
    | none => s
  else s

/-- `canonicalize_subject`: parenthetical rewrite of `CCF`-prefixed labels,
then the fixed subject renames. -/
def canonicalize_subject (label : String) : String :=
  applyRules23 (stage1b (stage1 (norm_space label)))

/-! ### `_clean_deadline_human`: noise removal and date parsing

Each `re.sub` pass is modelled by a left-to-right scanner: at every
position try to match the pattern; on a match drop it and continue after
it, otherwise keep one character and move on.  Every pattern consumes at
least one character, so fuel equal to the input length suffices. -/

/-- One `re.sub(pat, "", s)` pass: `tryM` returns the remainder after a
match at the current position. -/
def scanSub (tryM : List Char → Option (List Char)) : Nat → List Char → List Char
  | 0, l => l
  | _ + 1, [] => []
  | fuel + 1, c :: cs =>
    match tryM (c :: cs) with
    | some rest => scanSub tryM fuel rest
    | none => c :: scanSub tryM fuel cs

def runSub (tryM : List Char → Option (List Char)) (l : List Char) : List Char :=
  scanSub tryM l.length l

/-- Case-insensitive literal prefix match, returning the remainder. -/
def matchPrefixCI : List Char → List Char → Option (List Char)
  | [], l => some l
  | _ :: _, [] => none
  | p :: ps, c :: cs => if lowerChar c = lowerChar p then matchPrefixCI ps cs else none

/-- `re.sub(r"</?strike>", "", s, flags=re.IGNORECASE)` matcher. -/
def tryStrike (l : List Char) : Option (List Char) :=
  match matchPrefixCI "<strike>".data l with
  | some r => some r
  | none => matchPrefixCI "</strike>".data l

/-- Scan to the matching `)` for the non-greedy `\(.*?\)` (a `.` never
crosses a newline). -/
def findCloseNoNl : List Char → Option (List Char)
  | [] => none
  | ')' :: r => some r
  | '\n' :: _ => none
  | _ :: r => findCloseNoNl r

/-- `re.sub(r"\(.*?\)", "", s)` matcher. -/
def tryParen (l : List Char) : Option (List Char) :=
  match l with
  | '(' :: rest => findCloseNoNl rest
  | _ => none

/-- Drop a run of one or more `p`-characters. -/
def dropRun1 (p : Char → Bool) (l : List Char) : Option (List Char) :=
  match l with
  | c :: cs => if p c then some (cs.dropWhile p) else none
  | [] => none

/-- `re.sub(r"in\s+\d+\s+days", "", s, flags=re.IGNORECASE)` matcher. -/
def tryInDays (l : List Char) : Option (List Char) :=
  match l with
  | c1 :: c2 :: rest =>
    if lowerChar c1 = 'i' ∧ lowerChar c2 = 'n' then
      (dropRun1 (isWsChar ·) rest).bind fun r1 =>
        (dropRun1 (isDigitChar ·) r1).bind fun r2 =>
          (dropRun1 (isWsChar ·) r2).bind fun r3 => matchPrefixCI "days".data r3
    else none
  | _ => none

/-- Tail of the clock pattern after the `:`: exactly two digits, optional
whitespace, then `AM` or `PM` (case-insensitive). -/
def clockTail (l : List Char) : Option (List Char) :=
  match l with
  | a :: b :: r3 =>
    if isDigitChar a ∧ isDigitChar b then
      let r4 := r3.dropWhile (isWsChar ·)
      match matchPrefixCI "am".data r4 with
      | some r => some r
      | none => matchPrefixCI "pm".data r4
    else none
  | _ => none

/-- `re.sub(r";?\s*\d{1,2}:\d{2}\s*(AM|PM)", "", s, flags=re.IGNORECASE)`
matcher.  `\d{1,2}` is greedy (two digits tried before one); an unconsumed
`;` can never start a match, so the optional `;?` needs no backtracking. -/
def tryClock (l : List Char) : Option (List Char) :=
  let l1 := match l with
            | ';' :: r => r
            | _ => l
  let l2 := l1.dropWhile (isWsChar ·)
  match l2 with
  | d1 :: rest =>
    if isDigitChar d1 then
      match rest with
      | d2 :: ':' :: r2 =>
        if isDigitChar d2 then clockTail r2
        else none
      | ':' :: r2 => clockTail r2
      | _ => none
    else none
  | [] => none

/-! #### `datetime.strptime` for the five formats, and `strftime("%b %d %Y")` -/

structure PyDate where
  year : Nat
  month : Nat
  day : Nat
deriving DecidableEq, Repr

def monthAbbrs : List String :=
  ["Jan", "Feb", "Mar", "Apr", "May", "Jun", "Jul", "Aug", "Sep", "Oct", "Nov", "Dec"]

def monthFulls : List String :=
  ["January", "February", "March", "April", "May", "June", "July", "August", "September",
    "October", "November", "December"]

/-- Try each month name (1-indexed) as a case-insensitive prefix. -/
def matchNameIdx : Nat → List String → List Char → Option (Nat × List Char)
  | _, [], _ => none
  | i, n :: ns, l =>
    match matchPrefixCI n.data l with
    | some r => some (i, r)
    | none => matchNameIdx (i + 1) ns l

def digitVal (c : Char) : Nat := c.toNat - 48

/-- `%d`: `3[01]|[12]\d|0[1-9]|[1-9]`, i.e. a two-digit day `01`-`31` or a
single digit `1`-`9`.  The following format token is never a digit, so the
regex backtracking from two digits to one can never change the outcome. -/
def parseDay : List Char → Option (Nat × List Char)
  | a :: b :: rest =>
    if isDigitChar a ∧ isDigitChar b then
      let v := digitVal a * 10 + digitVal b
      if 1 ≤ v ∧ v ≤ 31 then some (v, rest) else none
    else if isDigitChar a ∧ 1 ≤ digitVal a then some (digitVal a, b :: rest)
    else none
  | [a] => if isDigitChar a ∧ 1 ≤ digitVal a then some (digitVal a, []) else none
  | [] => none

/-- `%m`: `1[0-2]|0[1-9]|[1-9]`, i.e. two-digit `01`-`12` or one digit. -/
def parseMonthNum : List Char → Option (Nat × List Char)
  | a :: b :: rest =>
    if isDigitChar a ∧ isDigitChar b then
      let v := digitVal a * 10 + digitVal b
      if 1 ≤ v ∧ v ≤ 12 then some (v, rest) else none
    else if isDigitChar a ∧ 1 ≤ digitVal a then some (digitVal a, b :: rest)
    else none
  | [a] => if isDigitChar a ∧ 1 ≤ digitVal a then some (digitVal a, []) else none
  | [] => none

/-- `%Y`: exactly four digits. -/
def parseYear4 : List Char → Option (Nat × List Char)
  | a :: b :: c :: d :: rest =>
    if isDigitChar a ∧ isDigitChar b ∧ isDigitChar c ∧ isDigitChar d then
      some (digitVal a * 1000 + digitVal b * 100 + digitVal c * 10 + digitVal d, rest)
    else none
  | _ => none

def isLeapYear (y : Nat) : Bool := y % 4 = 0 && (y % 100 ≠ 0 || y % 400 = 0)

def daysInMonth (y m : Nat) : Nat :=
  if m = 2 then (if isLeapYear y then 29 else 28)
  else if m = 4 ∨ m = 6 ∨ m = 9 ∨ m = 11 then 30
  else 31

/-- The range checks done by the `datetime` constructor (a failure raises
`ValueError`, caught by the format loop). -/
def validDate (y m d : Nat) : Bool :=
  1 ≤ y && y ≤ 9999 && 1 ≤ m && m ≤ 12 && 1 ≤ d && d ≤ daysInMonth y m

def mkDate (y m d : Nat) : Option PyDate :=
  if validDate y m d then some ⟨y, m, d⟩ else none

/-- The five formats tried by `_clean_deadline_human`, in source order. -/
inductive DateFmt where
  | bdY       -- "%b %d %Y"
  | bFulldY   -- "%B %d %Y"
  | bdCommaY  -- "%b %d, %Y"
  | bFulldCommaY -- "%B %d, %Y"
  | ymd       -- "%Y-%m-%d"
deriving DecidableEq, Repr

/-- `datetime.strptime(s, fmt)`: whitespace in the format matches `\s+`,
literals match themselves, the whole string must be consumed, and the
resulting date must be constructible. -/
def strptime (fmt : DateFmt) (l : List Char) : Option PyDate :=
  match fmt with
  | .bdY | .bFulldY =>
    let names := if fmt = .bdY then monthAbbrs else monthFulls
    (matchNameIdx 1 names l).bind fun (m, r1) =>
      (dropRun1 (isWsChar ·) r1).bind fun r2 =>
        (parseDay r2).bind fun (d, r3) =>
          (dropRun1 (isWsChar ·) r3).bind fun r4 =>
            (parseYear4 r4).bind fun (y, r5) =>
              if r5 = [] then mkDate y m d else none
  | .bdCommaY | .bFulldCommaY =>
    let names := if fmt = .bdCommaY then monthAbbrs else monthFulls
    (matchNameIdx 1 names l).bind fun (m, r1) =>
      (dropRun1 (isWsChar ·) r1).bind fun r2 =>
        (parseDay r2).bind fun (d, r3) =>
          (match r3 with
           | ',' :: r => some r
           | _ => none).bind fun r4 =>
            (dropRun1 (isWsChar ·) r4).bind fun r5 =>
              (parseYear4 r5).bind fun (y, r6) =>
                if r6 = [] then mkDate y m d else none
  | .ymd =>
    (parseYear4 l).bind fun (y, r1) =>
      (match r1 with
       | '-' :: r => some r
       | _ => none).bind fun r2 =>
        (parseMonthNum r2).bind fun (m, r3) =>
          (match r3 with
           | '-' :: r => some r
           | _ => none).bind fun r4 =>
            (parseDay r4).bind fun (d, r5) =>
              if r5 = [] then mkDate y m d else none

def formatList : List DateFmt := [.bdY, .bFulldY, .bdCommaY, .bFulldCommaY, .ymd]

/-- The `for fmt in (...)` loop: first successful parse wins. -/
def firstParse (l : List Char) : Option PyDate :=
  formatList.findSome? (fun f => strptime f l)

def pad2 (n : Nat) : String := if n < 10 then "0" ++ toString n else toString n

/-- `dt.strftime("%b %d %Y")` (glibc: `%Y` prints the year unpadded; all
dates here have four-digit years). -/
def strftime_bdY (d : PyDate) : String :=
  (monthAbbrs.getD (d.month - 1) "") ++ " " ++ pad2 d.day ++ " " ++ toString d.year

/-- The noise-removal passes of `_clean_deadline_human`, before parsing. -/
def cleanNoise (l : List Char) : List Char :=
  let l1 := runSub tryStrike l
  let l2 := runSub tryParen l1
  let l3 := runSub tryInDays l2
  let l4 := runSub tryClock l3
  let l5 := l4.filter (fun c => c ≠ ';')
  normSpaceL l5

/-- `_clean_deadline_human(val)`: `""` for non-string or blank input; else
strip noise, try the five formats in order, re-render a successful parse as
`"%b %d %Y"`, and otherwise return the cleaned string verbatim. -/
def clean_deadline_human (v : Val) : String :=
  match v with
  | Val.vStr s =>
    if pyStrip s = "" then ""
    else
      let cleaned := cleanNoise s.data
      match firstParse cleaned with
      | some d => strftime_bdY d
      | none => ⟨cleaned⟩
  | _ => ""

/-! ### Subject-list and record normalization, merge policy -/

/-- `_dedupe_list`: strip each element, skip empties, keep first
occurrences in order (`seen` accumulates what was already emitted). -/
def dedupeAux : List String → List String → List String
  | _, [] => []
  | seen, x :: rest =>
    let x' := pyStrip x
    if x' = "" then dedupeAux seen rest
    else if x' ∈ seen then dedupeAux seen rest
    else x' :: dedupeAux (x' :: seen) rest

def dedupe_list (xs : List String) : List String := dedupeAux [] xs

/-- The subject list computed by `normalize_entry_subjects` from the raw
`sub` value: canonicalize, drop empties, dedupe, default to
`["Uncategorized"]`. -/
def subsOf (entry : Entry) : List String :=
  let raw := entry.getD "sub" (vStr "")
  let subs :=
    match raw with
    | vList xs => xs.map canonicalize_subject
    | vStr s => if pyStrip s = "" then [] else [canonicalize_subject s]
    | vNone => []
  let subs := dedupe_list (subs.filter (fun s => s != ""))
  if subs = [] then ["Uncategorized"] else subs

/-- `normalize_entry_fields`: build the nine-key record, whitespace-
normalize every string field, clean the five date fields, normalize the
subject list.  The output dict has exactly these keys in this order. -/
def normalize_entry_fields (entry : Entry) : Entry :=
  [("name", vStr (norm_space_val (entry.getD "name" (vStr "")))),
   ("sub", vList (subsOf entry)),
   ("Location", vStr (norm_space_val (entry.getD "Location" (vStr "")))),
   ("Start Date",
     vStr (clean_deadline_human (vStr (norm_space_val (entry.getD "Start Date" (vStr "")))))),
   ("End Date",
     vStr (clean_deadline_human (vStr (norm_space_val (entry.getD "End Date" (vStr "")))))),
   ("Abstract Deadline",
     vStr (clean_deadline_human
       (vStr (norm_space_val (entry.getD "Abstract Deadline" (vStr "")))))),
   ("Submission Deadline",
     vStr (clean_deadline_human
       (vStr (norm_space_val (entry.getD "Submission Deadline" (vStr "")))))),
   ("Notification",
     vStr (clean_deadline_human (vStr (norm_space_val (entry.getD "Notification" (vStr "")))))),
   ("link", vStr (norm_space_val (entry.getD "link" (vStr ""))))]

/-- String access into a normalized entry (these keys always hold
strings there; missing keys read as `""`, mirroring `entry.get(k, "")`). -/
def Entry.getStr (e : Entry) (k : String) : String :=
  match lookupVal e k with
  | some (vStr s) => s
  | _ => ""

/-- `_ensure_list(entry.get("sub"))`: `None` (or a missing key) becomes
`[]`, a list stays, anything else is wrapped. -/
def Entry.getSubList (e : Entry) : List String :=
  match lookupVal e "sub" with
  | some (vList xs) => xs
  | some (vStr s) => [s]
  | some vNone => []
  | none => []

/-- The per-field update of the `updatable` loop in `merge_entries`:
`if nv: if (not old) or (old != nv): old[k] = nv`. -/
def updField (ov nv : String) : String :=
  if nv ≠ "" then (if ov = "" ∨ ov ≠ nv then nv else ov) else ov

/-- `merge_entries(old, new)`: normalize both records, then keep the
longer non-empty name, fill the link only if missing, refresh the six
updatable fields from non-empty new values, and union the subjects. -/
def merge_entries (old new : Entry) : Entry :=
  let o := normalize_entry_fields old
  let n := normalize_entry_fields new
  let oName := o.getStr "name"
  let nName := n.getStr "name"
  let name := if nName ≠ "" ∧ nName.length > oName.length then nName else oName
  let oLink := o.getStr "link"
  let nLink := n.getStr "link"
  let link := if oLink = "" ∧ nLink ≠ "" then nLink else oLink
  let subs :=
    dedupe_list ((o.getSubList ++ n.getSubList).map canonicalize_subject)
  let subs := if subs = [] then ["Uncategorized"] else subs
  [("name", vStr name),
   ("sub", vList subs),
   ("Location", vStr (updField (o.getStr "Location") (n.getStr "Location"))),
   ("Start Date", vStr (updField (o.getStr "Start Date") (n.getStr "Start Date"))),
   ("End Date", vStr (updField (o.getStr "End Date") (n.getStr "End Date"))),
   ("Abstract Deadline",
     vStr (updField (o.getStr "Abstract Deadline") (n.getStr "Abstract Deadline"))),
   ("Submission Deadline",
     vStr (updField (o.getStr "Submission Deadline") (n.getStr "Submission Deadline"))),
   ("Notification", vStr (updField (o.getStr "Notification") (n.getStr "Notification"))),
   ("link", vStr link)]

/-! ### Identity keys -/

def dashChars : List Char := ['‐', '‑', '‒', '–', '—', '−']

def mapDash (c : Char) : Char := if c ∈ dashChars then '-' else c

/-- The character class `[a-z0-9\- ]` kept by the key normalizers. -/
def isKeyChar (c : Char) : Bool :=
  ('a' ≤ c && c ≤ 'z') || ('0' ≤ c && c ≤ '9') || c = '-' || c = ' '

/-- `_norm_key_exact`: lower-case, collapse whitespace, unify dashes,
strip everything outside `[a-z0-9 -]`. -/
def norm_key_exact (v : Val) : String :=
  let s1 := (safe_str v).data.map lowerChar
  let s2 := trimWs (collapseWs false s1)
  let s3 := (s2.map mapDash).filter isKeyChar
  ⟨trimWs s3⟩

/-- `_YEAR_RE` matcher: `\b(19|20)\d{2}\b`; `prevWord` says whether the
character before the current position is a word character. -/
def tryYear (prevWord : Bool) (l : List Char) : Option (List Char) :=
  if prevWord then none
  else
    match l with
    | a :: b :: c :: d :: rest =>
      if ((a = '1' ∧ b = '9') ∨ (a = '2' ∧ b = '0')) ∧ isDigitChar c ∧ isDigitChar d then
        match rest with
        | [] => some []
        | e :: _ => if isWordChar e then none else some rest
      else none
    | _ => none

/-- A boundary-tracking `re.sub` scan.  After a match the previous
character is the last matched one, which for both patterns used here is a
word character, so the flag restarts as `true`. -/
def scanSubB (tryM : Bool → List Char → Option (List Char)) :
    Nat → Bool → List Char → List Char
  | 0, _, l => l
  | _ + 1, _, [] => []
  | fuel + 1, prev, c :: cs =>
    match tryM prev (c :: cs) with
    | some rest => scanSubB tryM fuel true rest
    | none => c :: scanSubB tryM fuel (isWordChar c) cs

def yearSub (l : List Char) : List Char := scanSubB tryYear l.length false l

/-- Trailing `\b`-checked alternation `(?:\d+|spring|fall)` of the cycle
pattern (the three alternatives start with distinct character classes). -/
def tryCycleTail (l : List Char) : Option (List Char) :=
  match l with
  | c :: _ =>
    if isDigitChar c then
      match l.dropWhile (isDigitChar ·) with
      | [] => some []
      | e :: r => if isWordChar e then none else some (e :: r)
    else
      match matchPrefixCI "spring".data l with
      | some r =>
        (match r with
         | [] => some []
         | e :: r' => if isWordChar e then none else some (e :: r'))
      | none =>
        match matchPrefixCI "fall".data l with
        | some r =>
          (match r with
           | [] => some []
           | e :: r' => if isWordChar e then none else some (e :: r'))
        | none => none
  | [] => none

/-- `_CYCLE_RE` matcher:
`(?i)(?:[-–—]?\s*)?cycle\s*(?:\d+|spring|fall)\b`. -/
def tryCycle (l : List Char) : Option (List Char) :=
  let l1 :=
    match l with
    | c :: r => if c = '-' ∨ c = '–' ∨ c = '—' then r else l
    | [] => l
  let l2 := l1.dropWhile (isWsChar ·)
  match matchPrefixCI "cycle".data l2 with
  | some r => tryCycleTail (r.dropWhile (isWsChar ·))
  | none => none

def cycleSub (l : List Char) : List Char := runSub tryCycle l

/-- `_norm_key_series`: remove year and cycle tokens from the raw name,
then normalize like `_norm_key_exact`. -/
def norm_key_series (v : Val) : String :=
  let s0 := (safe_str v).data
  let s1 := cycleSub (yearSub s0)
  let s2 := (trimWs s1).map lowerChar
  let s3 := trimWs (collapseWs false s2)
  let s4 := (s3.map mapDash).filter isKeyChar
  ⟨trimWs s4⟩

/-- `build_match_keys`: `(link_key, exact_name_key, series_key)`. -/
def build_match_keys (e : Entry) : String × String × String :=
  let link := safe_str (e.getD "link" (vStr ""))
  let link_key := if link ≠ "" then pyStrip (lowerStr link) else ""
  (link_key, norm_key_exact (e.getD "name" (vStr "")), norm_key_series (e.getD "name" (vStr "")))

/-! ### Catalog index and resolution engine -/

/-- Dict lookup in the key→position index. -/
def idxFind : List (String × Nat) → String → Option Nat
  | [], _ => none
  | (k', v) :: rest, k => if k' = k then some v else idxFind rest k

/-- `idx.setdefault(k, v)`: first writer for a key keeps the slot. -/
def setdefault (idx : List (String × Nat)) (k : String) (v : Nat) : List (String × Nat) :=
  if (idxFind idx k).isSome then idx else idx ++ [(k, v)]

/-- Register the three typed keys of one record at position `i`, skipping
empty keys (`if link_key: ... if exact: ... if series: ...`). -/
def registerKeys (idx : List (String × Nat)) (lk ex se : String) (i : Nat) :
    List (String × Nat) :=
  let idx1 := if lk ≠ "" then setdefault idx ("L:" ++ lk) i else idx
  let idx2 := if ex ≠ "" then setdefault idx1 ("N:" ++ ex) i else idx1
  if se ≠ "" then setdefault idx2 ("S:" ++ se) i else idx2

/-- `build_index`: one pass over the catalog, `setdefault` per key. -/
def build_index (existing : List Entry) : List (String × Nat) :=
  existing.enum.foldl
    (fun idx p =>
      let ks := build_match_keys p.2
      registerKeys idx ks.1 ks.2.1 ks.2.2 p.1)
    []

/-- The match attempt of `merge_update`: link key, then exact name key,
then series key; first hit wins. -/
def findHit (idx : List (String × Nat)) (lk ex se : String) : Option Nat :=
  if lk ≠ "" ∧ (idxFind idx ("L:" ++ lk)).isSome then idxFind idx ("L:" ++ lk)
  else if ex ≠ "" ∧ (idxFind idx ("N:" ++ ex)).isSome then idxFind idx ("N:" ++ ex)
  else if se ≠ "" ∧ (idxFind idx ("S:" ++ se)).isSome then idxFind idx ("S:" ++ se)
  else none

/-- Resolution-engine state: the catalog being grown plus the key index. -/
structure MState where
  catalog : List Entry
  idx : List (String × Nat)
deriving Repr

/-- One iteration of the `for ne in new_entries` loop of `merge_update`:
normalize, look up a match; on a miss append and register the new keys, on
a hit merge into the slot (the index is not touched on that branch). -/
def step (s : MState) (ne : Entry) : MState :=
  let ne2 := normalize_entry_fields ne
  let ks := build_match_keys ne2
  match findHit s.idx ks.1 ks.2.1 ks.2.2 with
  | none =>
    { catalog := s.catalog ++ [ne2],
      idx := registerKeys s.idx ks.1 ks.2.1 ks.2.2 s.catalog.length }
  | some hit =>
    { catalog := s.catalog.set hit (merge_entries (s.catalog.getD hit []) ne2),
      idx := s.idx }

/-- `merge_update(existing, new_entries)`: normalize the baseline, build
the index, then fold the resolution step over the incoming records. -/
def merge_update (existing new_entries : List Entry) : List Entry :=
  let existing2 := existing.map normalize_entry_fields
  (new_entries.foldl step ⟨existing2, build_index existing2⟩).catalog

/-! ### Ordering stage (`sort_output`) -/

/-- `s.replace("Z", "+00:00")` (every occurrence). -/
def replaceZL : List Char → List Char
  | [] => []
  | 'Z' :: rest => '+' :: '0' :: '0' :: ':' :: '0' :: '0' :: replaceZL rest
  | c :: rest => c :: replaceZL rest

/-- Exactly two digits. -/
def parse2 : List Char → Option (Nat × List Char)
  | a :: b :: rest =>
    if isDigitChar a ∧ isDigitChar b then some (digitVal a * 10 + digitVal b, rest) else none
  | _ => none

/-- An aware-or-naive timestamp as parsed by `datetime.fromisoformat`. -/
structure PyDateTime where
  date : PyDate
  hour : Nat
  minute : Nat
  second : Nat
  offsetMinutes : Int
  aware : Bool
deriving DecidableEq, Repr

/-- Optional `±HH:MM` offset suffix. -/
def parseOffset (l : List Char) : Option (Int × Bool × List Char) :=
  match l with
  | '+' :: r =>
    (parse2 r).bind fun (hh, r1) =>
      match r1 with
      | ':' :: r2 =>
        (parse2 r2).bind fun (mm, r3) =>
          if hh ≤ 23 ∧ mm ≤ 59 then some ((hh * 60 + mm : Nat), true, r3) else none
      | _ => none
  | '-' :: r =>
    (parse2 r).bind fun (hh, r1) =>
      match r1 with
      | ':' :: r2 =>
        (parse2 r2).bind fun (mm, r3) =>
          if hh ≤ 23 ∧ mm ≤ 59 then some (-((hh * 60 + mm : Nat) : Int), true, r3) else none
      | _ => none
  | [] => some (0, false, [])
  | _ => none

/-- Optional `:SS` seconds suffix. -/
def parseSeconds (l : List Char) : Option (Nat × List Char) :=
  match l with
  | ':' :: r => (parse2 r).bind fun (ss, r1) => if ss ≤ 59 then some (ss, r1) else none
  | _ => some (0, l)

/-- Modelled from `datetime.fromisoformat`, restricted to the ISO-8601
subset this script produces and consumes: `YYYY-MM-DD`, optionally
followed by `T` or space, `HH:MM`, optional `:SS`, and an optional
`±HH:MM` offset.  (Python-version-specific extensions — basic format,
fractional seconds, `$` weeks — never occur in the catalog data and are
not modelled; strings outside this subset simply fail to parse, sending
`_ts` to its `"%b %d %Y"` fallback.) -/
def fromisoformatSub (l : List Char) : Option PyDateTime :=
  (parseYear4 l).bind fun (y, r1) =>
    (match r1 with
     | '-' :: r => some r
     | _ => none).bind fun r2 =>
      (parse2 r2).bind fun (m, r3) =>
        (match r3 with
         | '-' :: r => some r
         | _ => none).bind fun r4 =>
          (parse2 r4).bind fun (d, r5) =>
            if validDate y m d then
              match r5 with
              | [] => some ⟨⟨y, m, d⟩, 0, 0, 0, 0, false⟩
              | sep :: r6 =>
                if sep = 'T' ∨ sep = ' ' then
                  (parse2 r6).bind fun (hh, r7) =>
                    (match r7 with
                     | ':' :: r => some r
                     | _ => none).bind fun r8 =>
                      (parse2 r8).bind fun (mi, r9) =>
                        (parseSeconds r9).bind fun (ss, r10) =>
                          (parseOffset r10).bind fun (off, aw, r11) =>
                            if hh ≤ 23 ∧ mi ≤ 59 ∧ r11 = [] then
                              some ⟨⟨y, m, d⟩, hh, mi, ss, off, aw⟩
                            else none
                else none
            else none

/-- Days since the Unix epoch of a Gregorian date (`y ≥ 1`). -/
def daysFromCivil (y m d : Nat) : Int :=
  let y' := if m ≤ 2 then y - 1 else y
  let era := y' / 400
  let yoe := y' % 400
  let mp := (m + 9) % 12
  let doy := (153 * mp + 2) / 5 + d - 1
  let doe := yoe * 365 + yoe / 4 - yoe / 100 + doy
  (era : Int) * 146097 + (doe : Int) - 719468

/-- `dt.timestamp()` in whole seconds.  A naive datetime is interpreted in
the process-local timezone; the model fixes that timezone to UTC, which
leaves the relative order of uniformly-parsed values unchanged. -/
def pyTimestamp (dt : PyDateTime) : Int :=
  daysFromCivil dt.date.year dt.date.month dt.date.day * 86400
    + dt.hour * 3600 + dt.minute * 60 + dt.second - dt.offsetMinutes * 60

/-- `_ts(s)`: `None` for blank; else ISO-8601 (after `Z` → `+00:00`),
else `"%b %d %Y"`, else `None`. -/
def tsOf (s : String) : Option Int :=
  let s' := pyStrip s
  if s' = "" then none
  else
    match fromisoformatSub (replaceZL s'.data) with
    | some dt => some (pyTimestamp dt)
    | none =>
      match strptime .bdY s'.data with
      | some d => some (daysFromCivil d.year d.month d.day * 86400)
      | none => none

/-- The deadline component of the sort key:
`_ts(_safe_str(e.get("Submission Deadline")))`. -/
def tsE (e : Entry) : Option Int := tsOf (safe_str (e.getD "Submission Deadline" vNone))

/-- The name component: `_safe_str(e.get("name")).lower()`. -/
def nameKey (e : Entry) : List Char := (lowerStr (safe_str (e.getD "name" vNone))).data

/-- The sort key tuple `(0, ts, name)` / `(1, 9e18, name)` of `_key`,
compared lexicographically as Python compares tuples. -/
def pyKey (e : Entry) : Nat ×ₗ Int ×ₗ List Char :=
  match tsE e with
  | some t => toLex (0, toLex (t, nameKey e))
  | none => toLex (1, toLex ((9 * 10 ^ 18 : Int), nameKey e))

def pyKeyRel (a b : Entry) : Prop := pyKey a ≤ pyKey b

instance : DecidableRel pyKeyRel := fun a b =>
  inferInstanceAs (Decidable (pyKey a ≤ pyKey b))

instance : IsTotal Entry pyKeyRel := ⟨fun a b => le_total (pyKey a) (pyKey b)⟩

instance : IsTrans Entry pyKeyRel := ⟨fun _ _ _ h1 h2 => le_trans h1 h2⟩

/-- `sort_output(entries) = sorted(entries, key=_key)`: Python's `sorted`
is a stable sort by key; a stable sort by a total preorder is extensionally
unique, so it is modelled by the stable `insertionSort` by the same key. -/
def sort_output (entries : List Entry) : List Entry :=
  List.insertionSort pyKeyRel entries

/-! ### Properties of `canonicalize_subject` -/

/-- Would another application of the CCF parenthetical rules rewrite `s`
further?  (`canonicalize_subject` applies rule (1) in two forms; a label is
stable under a second pass exactly when neither form fires on it.) -/
def ccfTrigger (s : String) : Prop :=
  (rule1Content s.data).isSome = true ∨
    (startsCCF s.data = true ∧ (rule1bContent s.data).isSome = true)

instance (s : String) : Decidable (ccfTrigger s) := by
  unfold ccfTrigger; infer_instance

/-! ### Merge-policy claims -/

/-- An entry with a field outside the nine-key schema. -/
def extraOld : Entry := [("name", vStr "A"), ("venue", vStr "HNL")]

def extraNew : Entry := [("name", vStr "A")]

/-- The ICML pair of Scenario 3, already in normalized form. -/
def icmlOld : Entry :=
  [("name", vStr "ICML"), ("sub", vList ["Uncategorized"]), ("Location", vStr ""),
   ("Start Date", vStr ""), ("End Date", vStr ""), ("Abstract Deadline", vStr ""),
   ("Submission Deadline", vStr ""), ("Notification", vStr ""), ("link", vStr "")]

def icmlNew : Entry :=
  [("name", vStr "ICML 2026"), ("sub", vList ["Uncategorized"]), ("Location", vStr ""),
   ("Start Date", vStr ""), ("End Date", vStr ""), ("Abstract Deadline", vStr ""),
   ("Submission Deadline", vStr "Jan 30 2026"), ("Notification", vStr ""),
   ("link", vStr "https://icml.cc")]

/-! ### Resolution-engine claims -/

/-- The catalog after merging the (normalized) incoming record into
slot `i`. -/
def mergedAt (s : MState) (i : Nat) (ne : Entry) : List Entry :=
  s.catalog.set i (merge_entries (s.catalog.getD i []) (normalize_entry_fields ne))

/-- A two-entry catalog state: slot 0 is reachable by a link key, slot 1
by the incoming record's name keys. -/
def c3entryA : Entry :=
  [("name", vStr "alpha workshop"), ("link", vStr "https://x.org")]

def c3entryB : Entry := [("name", vStr "confname")]

def c3state : MState :=
  ⟨[normalize_entry_fields c3entryA, normalize_entry_fields c3entryB],
    build_index [normalize_entry_fields c3entryA, normalize_entry_fields c3entryB]⟩

/-- The incoming record: its link matches slot 0, its name keys match
slot 1. -/
def c3incoming : Entry := [("name", vStr "confname"), ("link", vStr "https://x.org")]

/-- A one-entry baseline with no link, plus two incoming records carrying
the same link: the first merges by name and equips the entry with the
link, the second can then only match via that acquired link. -/
def c1base : Entry := [("name", vStr "foo")]

def c1n1 : Entry := [("name", vStr "foo"), ("link", vStr "https://x.org")]

def c1n2 : Entry := [("name", vStr "bar"), ("link", vStr "https://x.org")]

/-! ### Ordering-stage claims -/

/-- The ordering the spec distills from `_key`: parseable deadlines first,
by timestamp, names breaking ties; unparseable records trail, by name. -/
def sortRelSpec (a b : Entry) : Prop :=
  match tsE a, tsE b with
  | some x, some y => x < y ∨ (x = y ∧ nameKey a ≤ nameKey b)
  | some _, none => True
  | none, some _ => False
  | none, none => nameKey a ≤ nameKey b

def recJan : Entry := [("name", vStr "aconf"), ("Submission Deadline", vStr "Jan 10 2026")]

def recMar : Entry := [("name", vStr "bconf"), ("Submission Deadline", vStr "Mar 01 2026")]

def recEmpty : Entry := [("name", vStr "cconf"), ("Submission Deadline", vStr "")]

/-! ## Theorems -/

theorem collapsedWs_nil : CollapsedWs [] := ⟨by simp, List.chain'_nil⟩

/-- After the flag is set, `collapseWs` never emits a leading whitespace
character other than by closing off the pending run, so with flag `true`
the head of the output is non-whitespace. -/
theorem headOk_collapseWs_true (l : List Char) : HeadOk (collapseWs true l) := by
  induction l with
  | nil => intro c hc; simp [collapseWs] at hc
  | cons d ds ih =>
    intro c hc
    cases hd : isWsChar d with
    | true =>
      simp only [collapseWs, hd, if_true] at hc
      exact ih c hc
    | false =>
      simp only [collapseWs, hd, Bool.false_eq_true, if_false, List.head?_cons,
        Option.some.injEq] at hc
      rw [← hc]
      exact hd

theorem collapsedWs_collapseWs (l : List Char) : ∀ b, CollapsedWs (collapseWs b l) := by
  induction l with
  | nil => intro b; exact collapsedWs_nil
  | cons c cs ih =>
    intro b
    cases hc : isWsChar c with
    | true =>
      cases b with
      | true => simpa only [collapseWs, hc, if_true] using ih true
      | false =>
        simp only [collapseWs, hc, if_true, Bool.false_eq_true, if_false]
        obtain ⟨ih1, ih2⟩ := ih true
        refine ⟨?_, ?_⟩
        · intro d hd hdw
          rcases List.mem_cons.mp hd with hd | hd
          · exact hd
          · exact ih1 d hd hdw
        · rw [List.chain'_cons']
          refine ⟨?_, ih2⟩
          intro y hy
          intro ⟨_, hy2⟩
          have := headOk_collapseWs_true cs y hy
          rw [this] at hy2
          exact Bool.false_ne_true hy2
    | false =>
      simp only [collapseWs, hc, Bool.false_eq_true, if_false]
      obtain ⟨ih1, ih2⟩ := ih false
      refine ⟨?_, ?_⟩
      · intro d hd hws
        rcases List.mem_cons.mp hd with hd | hd
        · rw [hd, hc] at hws; exact absurd hws Bool.false_ne_true
        · exact ih1 d hd hws
      · rw [List.chain'_cons']
        refine ⟨?_, ih2⟩
        intro y _ hp
        rw [hc] at hp
        exact absurd hp.1 Bool.false_ne_true

/-- `trimRight` is a prefix of its argument. -/
theorem trimRight_front (l : List Char) : trimRight l <+: l := by
  have h : (l.reverse.dropWhile (isWsChar ·)) <:+ l.reverse := List.dropWhile_suffix _
  have h2 : (trimRight l).reverse <:+ l.reverse := by
    simpa [trimRight] using h
  exact List.reverse_suffix.mp h2

theorem collapsedWs_of_suffix {l l' : List Char} (h : CollapsedWs l) (hs : l' <:+ l) :
    CollapsedWs l' :=
  ⟨fun c hc => h.1 c (hs.sublist.mem hc), h.2.suffix hs⟩

theorem noWsPair_symm {a b : Char} (h : NoWsPair a b) : NoWsPair b a :=
  fun hp => h ⟨hp.2, hp.1⟩

theorem collapsedWs_of_front {l l' : List Char} (h : CollapsedWs l) (hs : l' <+: l) :
    CollapsedWs l' := by
  refine ⟨fun c hc => h.1 c (hs.sublist.mem hc), ?_⟩
  have hrev : l'.reverse <:+ l.reverse := List.reverse_suffix.mpr hs
  have hc1 : List.Chain' (flip NoWsPair) l.reverse := by
    rw [List.chain'_reverse]
    exact h.2
  have hc2 : List.Chain' (flip NoWsPair) l'.reverse := hc1.suffix hrev
  rw [List.chain'_reverse] at hc2
  exact hc2

theorem collapsedWs_trimWs {l : List Char} (h : CollapsedWs l) : CollapsedWs (trimWs l) :=
  collapsedWs_of_front (collapsedWs_of_suffix h (List.dropWhile_suffix _)) (trimRight_front _)

theorem headOk_dropWs (l : List Char) : HeadOk (dropWs l) := by
  intro c hc
  have h := List.head?_dropWhile_not (isWsChar ·) l
  rw [dropWs] at hc
  rw [hc] at h
  exact h

theorem headOk_trimRight {l : List Char} (h : HeadOk l) : HeadOk (trimRight l) := by
  intro c hc
  rcases trimRight_front l with ⟨t, ht⟩
  apply h
  rw [← ht]
  cases htr : trimRight l with
  | nil => rw [htr] at hc; simp at hc
  | cons d ds =>
    rw [htr] at hc
    simp at hc
    simp [← hc]

theorem lastOk_trimRight (l : List Char) : LastOk (trimRight l) := by
  intro c hc
  rw [trimRight, List.getLast?_reverse] at hc
  have := List.head?_dropWhile_not (isWsChar ·) l.reverse
  rw [hc] at this
  exact this

theorem headOk_trimWs (l : List Char) : HeadOk (trimWs l) :=
  headOk_trimRight (headOk_dropWs l)

theorem lastOk_trimWs (l : List Char) : LastOk (trimWs l) :=
  lastOk_trimRight _

/-- On an already-collapsed list the collapsing pass is the identity. -/
theorem collapseWs_eq_self {l : List Char} (h : CollapsedWs l) : collapseWs false l = l := by
  induction l with
  | nil => rfl
  | cons c cs ih =>
    obtain ⟨h1, h2⟩ := h
    by_cases hc : isWsChar c = true
    · have hsp : c = ' ' := h1 c (by simp) hc
      simp only [collapseWs, hc, if_true, Bool.false_eq_true, if_false]
      rw [List.chain'_cons'] at h2
      have hcs : collapseWs true cs = collapseWs false cs := by
        cases cs with
        | nil => rfl
        | cons d ds =>
          have hd : isWsChar d = false := by
            by_contra hdc
            exact h2.1 d rfl ⟨hc, by simpa using hdc⟩
          simp [collapseWs, hd]
      rw [hcs, ih ⟨fun x hx => h1 x (by simp [hx]), h2.2⟩, hsp]
    · simp only [collapseWs, hc, Bool.false_eq_true, if_false]
      rw [List.chain'_cons'] at h2
      rw [ih ⟨fun x hx => h1 x (by simp [hx]), h2.2⟩]

theorem dropWs_eq_self {l : List Char} (h : HeadOk l) : dropWs l = l := by
  cases l with
  | nil => rfl
  | cons c cs =>
    have := h c rfl
    simp [dropWs, List.dropWhile_cons, this]

theorem trimRight_eq_self {l : List Char} (h : LastOk l) : trimRight l = l := by
  rw [trimRight]
  have hh : HeadOk l.reverse := by
    intro c hc
    rw [List.head?_reverse] at hc
    exact h c hc
  have := dropWs_eq_self hh
  rw [dropWs] at this
  rw [this, List.reverse_reverse]

theorem trimWs_eq_self {l : List Char} (hh : HeadOk l) (hl : LastOk l) : trimWs l = l := by
  rw [trimWs, dropWs_eq_self hh, trimRight_eq_self hl]

/-- `_norm_space` output is collapsed with no leading/trailing whitespace. -/
theorem normSpaceL_props (l : List Char) :
    CollapsedWs (normSpaceL l) ∧ HeadOk (normSpaceL l) ∧ LastOk (normSpaceL l) := by
  refine ⟨?_, headOk_trimWs _, lastOk_trimWs _⟩
  exact collapsedWs_trimWs (collapsedWs_collapseWs _ false)

/-- `_norm_space` is the identity on its own outputs. -/
theorem normSpaceL_idem (l : List Char) : normSpaceL (normSpaceL l) = normSpaceL l := by
  obtain ⟨hc, hh, hl⟩ := normSpaceL_props l
  rw [normSpaceL, trimWs_eq_self hh hl, collapseWs_eq_self hc, trimWs_eq_self hh hl]

/-- `_norm_space` is idempotent. -/
theorem norm_space_idem (s : String) : norm_space (norm_space s) = norm_space s := by
  simp [norm_space, normSpaceL_idem]

example : canonicalize_subject "CCF NW (Network System)" = "Network System" := by rfl

example : canonicalize_subject "Wireless & Communication" = "Wireless/Communication" := by rfl

example : canonicalize_subject "CCF AI (Artificial Intelligence)" = "Artificial Intelligence" := by
  rfl

example :
    canonicalize_subject "CCF A (CCF B (CCF C (D)))" = "CCF B (CCF C (D))" := by rfl

example :
    canonicalize_subject (canonicalize_subject "CCF A (CCF B (CCF C (D)))") = "D" := by rfl

example : clean_deadline_human (Val.vStr "Jan 30 2026") = "Jan 30 2026" := by rfl

example : clean_deadline_human (Val.vStr "Jan 5, 2026 (AoE)") = "Jan 05 2026" := by rfl

example : clean_deadline_human (Val.vStr "2026-01-30") = "Jan 30 2026" := by rfl

example : clean_deadline_human (Val.vStr "TBD") = "TBD" := by rfl

example :
    clean_deadline_human (Val.vStr "<strike>March 1 2026</strike>; 11:59 PM") =
      "Mar 01 2026" := by rfl

example : clean_deadline_human (Val.vStr "Feb 30 2026") = "Feb 30 2026" := by rfl

example : clean_deadline_human (Val.vStr "  ") = "" := by rfl

example : clean_deadline_human Val.vNone = "" := by rfl

example : norm_key_exact (vStr "FooConf 2026") = "fooconf 2026" := by rfl

example : norm_key_series (vStr "FooConf 2026") = "fooconf" := by rfl

example : norm_key_series (vStr "FooConf Cycle 2 2026") = "fooconf" := by rfl

example : norm_key_exact (vStr "ICML – 2026!") = "icml - 2026" := by rfl

example : tsOf "Jan 10 2026" = some 1768003200 := by rfl

example : tsOf "2026-01-10T23:59:00+08:00" = some (1768003200 + 86340 - 28800) := by rfl

example : tsOf "2026-01-10T23:59:00Z" = some (1768003200 + 86340) := by rfl

example : tsOf "" = none := by rfl

example : tsOf "whenever" = none := by rfl

theorem applyRules23_cases (s : String) :
    applyRules23 s = s ∨ applyRules23 s = "Wireless/Communication" ∨
      applyRules23 s = "Network System" := by
  unfold applyRules23
  dsimp only
  by_cases h1 : lowerStr s = "wireless & communication" ∨
      lowerStr s = "wireless and communication"
  · rw [if_pos h1]
    right; left; rfl
  · rw [if_neg h1]
    by_cases h2 : lowerStr s = "networking & systems" ∨ lowerStr s = "networking and systems" ∨
        lowerStr s = "networks and systems"
    · rw [if_pos h2]
      right; right; rfl
    · rw [if_neg h2]
      by_cases h3 : lowerStr s = "network system"
      · rw [if_pos h3]
        right; right; rfl
      · rw [if_neg h3]
        left; rfl

theorem applyRules23_idem (s : String) :
    applyRules23 (applyRules23 s) = applyRules23 s := by
  rcases applyRules23_cases s with h | h | h
  · rw [h]; exact h
  · rw [h]; rfl
  · rw [h]; rfl

theorem norm_space_stage1 (s : String) (h : norm_space s = s) :
    norm_space (stage1 s) = stage1 s := by
  unfold stage1
  cases hr : rule1Content s.data with
  | none => exact h
  | some c => exact norm_space_idem _

theorem norm_space_stage1b (s : String) (h : norm_space s = s) :
    norm_space (stage1b s) = stage1b s := by
  unfold stage1b
  by_cases hs : startsCCF s.data = true
  · simp only [hs, if_true]
    cases hr : rule1bContent s.data with
    | none => exact h
    | some c => exact norm_space_idem _
  · simp only [hs]
    simp only [Bool.not_eq_true] at hs
    simp [hs, h]

/-- The canonical form is `_norm_space`-normalized. -/
theorem norm_space_canonicalize (x : String) :
    norm_space (canonicalize_subject x) = canonicalize_subject x := by
  unfold canonicalize_subject
  have h2 : norm_space (stage1b (stage1 (norm_space x))) = stage1b (stage1 (norm_space x)) :=
    norm_space_stage1b _ (norm_space_stage1 _ (norm_space_idem x))
  rcases applyRules23_cases (stage1b (stage1 (norm_space x))) with h | h | h <;> rw [h]
  · exact h2
  · rfl
  · rfl

/-- C6 (counterexample): canonicalization is not idempotent.  One pass on
a label with three nested `CCF ... ( ... )` layers peels two layers (rule
(1) and then its trailing-parenthetical form); the remainder still matches
rule (1), so a second pass rewrites further. -/
theorem C6_counterexample :
    canonicalize_subject (canonicalize_subject "CCF A (CCF B (CCF C (D)))") ≠
      canonicalize_subject "CCF A (CCF B (CCF C (D)))" := by decide

/-- C6 (amended): canonicalization is idempotent on every label whose
canonical form does not again match a CCF-parenthetical rewrite pattern
(which requires at least three nested CCF parentheticals in the input). -/
theorem C6_canonicalize_idem_cond (x : String)
    (h : ¬ ccfTrigger (canonicalize_subject x)) :
    canonicalize_subject (canonicalize_subject x) =
      canonicalize_subject x := by
  have hy : norm_space (canonicalize_subject x) = canonicalize_subject x :=
    norm_space_canonicalize x
  have h1 : stage1 (canonicalize_subject x) = canonicalize_subject x := by
    unfold stage1
    cases hr : rule1Content (canonicalize_subject x).data with
    | none => rfl
    | some c => exact absurd (Or.inl (by rw [hr]; rfl)) h
  have h2 : stage1b (canonicalize_subject x) = canonicalize_subject x := by
    unfold stage1b
    by_cases hs : startsCCF (canonicalize_subject x).data = true
    · rw [if_pos hs]
      cases hr : rule1bContent (canonicalize_subject x).data with
      | none => rfl
      | some c => exact absurd (Or.inr ⟨hs, by rw [hr]; rfl⟩) h
    · rw [if_neg hs]
  conv_lhs => rw [canonicalize_subject, hy, h1, h2]
  conv_lhs => rw [canonicalize_subject]
  exact applyRules23_idem _

/-- C6 witness: a concrete label on which the amended idempotence theorem
applies. -/
theorem C6_witness :
    ¬ ccfTrigger (canonicalize_subject "CCF NW (Network System)") ∧
      canonicalize_subject (canonicalize_subject "CCF NW (Network System)") =
        canonicalize_subject "CCF NW (Network System)" :=
  ⟨by decide, C6_canonicalize_idem_cond "CCF NW (Network System)" (by decide)⟩

/-- C2 (counterexample): `merge_entries` does not leave fields outside
the enumerated set untouched — it drops them, because it first rebuilds
both inputs through the fixed nine-key `normalize_entry_fields` schema. -/
theorem C2_counterexample :
    lookupVal extraOld "venue" = some (vStr "HNL") ∧
      lookupVal (merge_entries extraOld extraNew) "venue" = none := by decide

/-- C2 (amended): the merged record carries exactly the nine enumerated
keys, in schema order; any other key present in `old` is absent from the
result rather than preserved. -/
theorem C2_merged_keys_exactly_nine (old new : Entry) :
    (merge_entries old new).map Prod.fst =
      ["name", "sub", "Location", "Start Date", "End Date", "Abstract Deadline",
        "Submission Deadline", "Notification", "link"] := rfl

/-- The net effect of the `updatable` loop body on one field. -/
theorem updField_eq (ov nv : String) : updField ov nv = if nv ≠ "" then nv else ov := by
  unfold updField
  by_cases h : nv = ""
  · simp [h]
  · simp only [h, ne_eq, not_false_eq_true, if_true]
    by_cases h2 : ov = "" ∨ ov ≠ nv
    · rw [if_pos h2]
    · rw [if_neg h2]
      push_neg at h2
      exact h2.2

/-- C4: on records fixed by normalization, each of the six updatable
fields of the merged record is `new`'s value when non-empty and `old`'s
value otherwise. -/
theorem C4_updatable_overwrite (old new : Entry)
    (hold : normalize_entry_fields old = old) (hnew : normalize_entry_fields new = new) :
    ∀ k ∈ ["Location", "Start Date", "End Date", "Abstract Deadline",
        "Submission Deadline", "Notification"],
      (merge_entries old new).getStr k =
        if new.getStr k ≠ "" then new.getStr k else old.getStr k := by
  intro k hk
  unfold merge_entries
  rw [hold, hnew]
  fin_cases hk
  · exact (updField_eq _ _)
  · exact (updField_eq _ _)
  · exact (updField_eq _ _)
  · exact (updField_eq _ _)
  · exact (updField_eq _ _)
  · exact (updField_eq _ _)

/-- C5: on records fixed by normalization, the merged name is `new`'s
name exactly when it is non-empty and strictly longer. -/
theorem C5_name_longer_wins (old new : Entry)
    (hold : normalize_entry_fields old = old) (hnew : normalize_entry_fields new = new) :
    (merge_entries old new).getStr "name" =
      if new.getStr "name" ≠ "" ∧ (old.getStr "name").length < (new.getStr "name").length
      then new.getStr "name" else old.getStr "name" := by
  unfold merge_entries
  rw [hold, hnew]
  rfl

/-- C5 witness: the incoming longer name `"ICML 2026"` replaces `"ICML"`. -/
theorem C5_witness :
    normalize_entry_fields icmlOld = icmlOld ∧ normalize_entry_fields icmlNew = icmlNew ∧
      (merge_entries icmlOld icmlNew).getStr "name" = "ICML 2026" := by
  refine ⟨by decide, by decide, ?_⟩
  rw [C5_name_longer_wins icmlOld icmlNew (by decide) (by decide)]
  decide

/-- C4 witness: the fresh non-empty deadline overwrites the empty one. -/
theorem C4_witness :
    normalize_entry_fields icmlOld = icmlOld ∧ normalize_entry_fields icmlNew = icmlNew ∧
      (merge_entries icmlOld icmlNew).getStr "Submission Deadline" = "Jan 30 2026" := by
  refine ⟨by decide, by decide, ?_⟩
  rw [C4_updatable_overwrite icmlOld icmlNew (by decide) (by decide)
    "Submission Deadline" (by decide)]
  decide

/-- C3: the resolution step matches in strict priority order.  A hit on
the non-empty link key merges into that slot regardless of where the name
keys point; the exact-name key is consulted only when the link key is
empty or misses; the series key only after both. -/
theorem C3_match_priority (s : MState) (ne : Entry) (i : Nat) :
    (((build_match_keys (normalize_entry_fields ne)).1 ≠ "" →
        idxFind s.idx ("L:" ++ (build_match_keys (normalize_entry_fields ne)).1) = some i →
        (step s ne).catalog = mergedAt s i ne) ∧
      (((build_match_keys (normalize_entry_fields ne)).1 = "" ∨
          idxFind s.idx ("L:" ++ (build_match_keys (normalize_entry_fields ne)).1) = none) →
        (build_match_keys (normalize_entry_fields ne)).2.1 ≠ "" →
        idxFind s.idx ("N:" ++ (build_match_keys (normalize_entry_fields ne)).2.1) = some i →
        (step s ne).catalog = mergedAt s i ne) ∧
      (((build_match_keys (normalize_entry_fields ne)).1 = "" ∨
          idxFind s.idx ("L:" ++ (build_match_keys (normalize_entry_fields ne)).1) = none) →
        ((build_match_keys (normalize_entry_fields ne)).2.1 = "" ∨
          idxFind s.idx ("N:" ++ (build_match_keys (normalize_entry_fields ne)).2.1) = none) →
        (build_match_keys (normalize_entry_fields ne)).2.2 ≠ "" →
        idxFind s.idx ("S:" ++ (build_match_keys (normalize_entry_fields ne)).2.2) = some i →
        (step s ne).catalog = mergedAt s i ne)) := by
  refine ⟨?_, ?_, ?_⟩
  · intro h1 h2
    have hf : findHit s.idx (build_match_keys (normalize_entry_fields ne)).1
        (build_match_keys (normalize_entry_fields ne)).2.1
        (build_match_keys (normalize_entry_fields ne)).2.2 = some i := by
      unfold findHit
      rw [if_pos ⟨h1, by rw [h2]; rfl⟩, h2]
    unfold step
    dsimp only
    rw [hf]
    rfl
  · intro h0 h1 h2
    have hc1 : ¬((build_match_keys (normalize_entry_fields ne)).1 ≠ "" ∧
        (idxFind s.idx ("L:" ++ (build_match_keys (normalize_entry_fields ne)).1)).isSome =
          true) := by
      rcases h0 with h0 | h0
      · intro ⟨ha, _⟩; exact ha h0
      · intro ⟨_, hb⟩; rw [h0] at hb; simp at hb
    have hf : findHit s.idx (build_match_keys (normalize_entry_fields ne)).1
        (build_match_keys (normalize_entry_fields ne)).2.1
        (build_match_keys (normalize_entry_fields ne)).2.2 = some i := by
      unfold findHit
      rw [if_neg hc1, if_pos ⟨h1, by rw [h2]; rfl⟩, h2]
    unfold step
    dsimp only
    rw [hf]
    rfl
  · intro h0 h0' h1 h2
    have hc1 : ¬((build_match_keys (normalize_entry_fields ne)).1 ≠ "" ∧
        (idxFind s.idx ("L:" ++ (build_match_keys (normalize_entry_fields ne)).1)).isSome =
          true) := by
      rcases h0 with h0 | h0
      · intro ⟨ha, _⟩; exact ha h0
      · intro ⟨_, hb⟩; rw [h0] at hb; simp at hb
    have hc2 : ¬((build_match_keys (normalize_entry_fields ne)).2.1 ≠ "" ∧
        (idxFind s.idx ("N:" ++ (build_match_keys (normalize_entry_fields ne)).2.1)).isSome =
          true) := by
      rcases h0' with h0' | h0'
      · intro ⟨ha, _⟩; exact ha h0'
      · intro ⟨_, hb⟩; rw [h0'] at hb; simp at hb
    have hf : findHit s.idx (build_match_keys (normalize_entry_fields ne)).1
        (build_match_keys (normalize_entry_fields ne)).2.1
        (build_match_keys (normalize_entry_fields ne)).2.2 = some i := by
      unfold findHit
      rw [if_neg hc1, if_neg hc2, if_pos ⟨h1, by rw [h2]; rfl⟩, h2]
    unfold step
    dsimp only
    rw [hf]
    rfl

/-- C3 witness: with the name keys pointing at slot 1, the engine still
merges into slot 0 because the link key matched first. -/
theorem C3_witness :
    (build_match_keys (normalize_entry_fields c3incoming)).1 ≠ "" ∧
      idxFind c3state.idx
        ("L:" ++ (build_match_keys (normalize_entry_fields c3incoming)).1) = some 0 ∧
      idxFind c3state.idx
        ("N:" ++ (build_match_keys (normalize_entry_fields c3incoming)).2.1) = some 1 ∧
      (step c3state c3incoming).catalog = mergedAt c3state 0 c3incoming :=
  ⟨by decide, by decide, by decide,
    (C3_match_priority c3state c3incoming 0).1 (by decide) (by decide)⟩

/-- C1 (counterexample): after the first incoming record merges into the
catalog entry and equips it with a link, the second incoming record — which
matches only that newly-acquired link — is appended as a duplicate instead
of merged, because the match branch never (re)registers the merged
record's keys. -/
theorem C1_counterexample :
    (merge_update [c1base] [c1n1, c1n2]).length = 2 ∧
      Entry.getStr ((merge_update [c1base] [c1n1, c1n2]).getD 0 []) "link" = "https://x.org" ∧
      Entry.getStr ((merge_update [c1base] [c1n1, c1n2]).getD 1 []) "link" =
        "https://x.org" := by decide

/-- C1 (amended): when a match is found the catalog slot is replaced by
the merged record, but the index is left untouched — the merged record's
keys are not (re)registered, so keys the merged record newly carries are
not matchable later.  Only the no-match (append) branch registers keys. -/
theorem C1_match_leaves_index_unchanged (s : MState) (ne : Entry) (i : Nat)
    (h : findHit s.idx (build_match_keys (normalize_entry_fields ne)).1
        (build_match_keys (normalize_entry_fields ne)).2.1
        (build_match_keys (normalize_entry_fields ne)).2.2 = some i) :
    (step s ne).idx = s.idx ∧ (step s ne).catalog = mergedAt s i ne := by
  unfold step
  dsimp only
  rw [h]
  exact ⟨rfl, rfl⟩

/-- C1 witness: the first record of the run matches by name; the merge
leaves the index unchanged even though the merged entry now carries a
link key. -/
theorem C1_witness :
    findHit (MState.idx ⟨[normalize_entry_fields c1base],
        build_index [normalize_entry_fields c1base]⟩)
      (build_match_keys (normalize_entry_fields c1n1)).1
      (build_match_keys (normalize_entry_fields c1n1)).2.1
      (build_match_keys (normalize_entry_fields c1n1)).2.2 = some 0 ∧
    (step ⟨[normalize_entry_fields c1base], build_index [normalize_entry_fields c1base]⟩
        c1n1).idx = build_index [normalize_entry_fields c1base] :=
  ⟨by decide,
    (C1_match_leaves_index_unchanged
      ⟨[normalize_entry_fields c1base], build_index [normalize_entry_fields c1base]⟩
      c1n1 0 (by decide)).1⟩

/-! ### Never-delete (C7) -/

theorem step_length_le (s : MState) (ne : Entry) :
    s.catalog.length ≤ (step s ne).catalog.length := by
  unfold step
  dsimp only
  split
  · simp
  · simp

/-- One resolution step either leaves a slot unchanged or merges the
incoming record into it. -/
theorem step_slot (s : MState) (ne : Entry) (i : Nat) (hi : i < s.catalog.length) :
    (step s ne).catalog.getD i [] = s.catalog.getD i [] ∨
      (step s ne).catalog.getD i [] =
        merge_entries (s.catalog.getD i []) (normalize_entry_fields ne) := by
  unfold step
  dsimp only
  split
  · left
    simp [List.getD_eq_getElem?_getD, List.getElem?_append_left hi]
  · rename_i hit hfind
    by_cases hhi : hit = i
    · right
      subst hhi
      simp [List.getD_eq_getElem?_getD, List.getElem?_set_self hi]
    · left
      simp [List.getD_eq_getElem?_getD, List.getElem?_set_ne hhi]

/-- Fold invariant: the whole resolution loop never shrinks the catalog,
and every pre-existing slot ends up as its old value refined by a chain of
`merge_entries` with normalized incoming records. -/
theorem mergeLoop_slots (news : List Entry) : ∀ (s : MState) (i : Nat),
    i < s.catalog.length →
    s.catalog.length ≤ ((news.foldl step s).catalog).length ∧
      ∃ ms : List Entry, (∀ m ∈ ms, ∃ ne ∈ news, m = normalize_entry_fields ne) ∧
        ((news.foldl step s).catalog).getD i [] =
          ms.foldl merge_entries (s.catalog.getD i []) := by
  induction news with
  | nil =>
    intro s i hi
    exact ⟨le_refl _, [], by simp, rfl⟩
  | cons ne rest ih =>
    intro s i hi
    have hlen : s.catalog.length ≤ (step s ne).catalog.length := step_length_le s ne
    have hi' : i < (step s ne).catalog.length := lt_of_lt_of_le hi hlen
    obtain ⟨hl, ms, hms, heq⟩ := ih (step s ne) i hi'
    rw [List.foldl_cons]
    refine ⟨le_trans hlen hl, ?_⟩
    rcases step_slot s ne i hi with hcase | hcase
    · refine ⟨ms, ?_, by rw [heq, hcase]⟩
      intro m hm
      obtain ⟨ne2, hne2, hm2⟩ := hms m hm
      exact ⟨ne2, List.mem_cons_of_mem _ hne2, hm2⟩
    · refine ⟨normalize_entry_fields ne :: ms, ?_, ?_⟩
      · intro m hm
        rcases List.mem_cons.mp hm with hm | hm
        · exact ⟨ne, List.mem_cons_self _ _, hm⟩
        · obtain ⟨ne2, hne2, hm2⟩ := hms m hm
          exact ⟨ne2, List.mem_cons_of_mem _ hne2, hm2⟩
      · rw [List.foldl_cons, heq, hcase]

/-- C7: `merge_update` never deletes — the catalog can only grow, and the
entry at every pre-run position is that same entry (normalized) refined by
a chain of merges with incoming records. -/
theorem C7_never_delete (existing news : List Entry) (i : Nat) (hi : i < existing.length) :
    existing.length ≤ (merge_update existing news).length ∧
      ∃ ms : List Entry, (∀ m ∈ ms, ∃ ne ∈ news, m = normalize_entry_fields ne) ∧
        (merge_update existing news).getD i [] =
          ms.foldl merge_entries (normalize_entry_fields (existing.getD i [])) := by
  have hlen : i < (existing.map normalize_entry_fields).length := by simpa using hi
  have h := mergeLoop_slots news
    ⟨existing.map normalize_entry_fields,
      build_index (existing.map normalize_entry_fields)⟩ i hlen
  obtain ⟨h1, ms, hms, heq⟩ := h
  have hbase : (existing.map normalize_entry_fields).getD i [] =
      normalize_entry_fields (existing.getD i []) := by
    simp [List.getD_eq_getElem?_getD, List.getElem?_eq_getElem hi,
      List.getElem?_eq_getElem hlen]
  refine ⟨by simpa using h1, ms, hms, ?_⟩
  rw [merge_update]
  dsimp only at heq ⊢
  rw [heq, hbase]

/-- C7 witness: a concrete run (one baseline entry, one incoming record
that merges into it). -/
theorem C7_witness :
    [c1base].length ≤ (merge_update [c1base] [c1n1]).length ∧
      ∃ ms : List Entry, (∀ m ∈ ms, ∃ ne ∈ [c1n1], m = normalize_entry_fields ne) ∧
        (merge_update [c1base] [c1n1]).getD 0 [] =
          ms.foldl merge_entries (normalize_entry_fields ([c1base].getD 0 [])) :=
  C7_never_delete [c1base] [c1n1] 0 (by decide)

theorem pyKeyRel_imp_spec (a b : Entry) (h : pyKeyRel a b) : sortRelSpec a b := by
  unfold pyKeyRel pyKey at h
  unfold sortRelSpec
  cases ha : tsE a with
  | some x =>
    cases hb : tsE b with
    | some y =>
      rw [ha, hb] at h
      simp only [] at h
      rcases (Prod.Lex.le_iff _ _).mp h with h1 | ⟨_, h2⟩
      · exact absurd h1 (lt_irrefl 0)
      · rcases (Prod.Lex.le_iff _ _).mp h2 with h3 | ⟨h3, h4⟩
        · exact Or.inl h3
        · exact Or.inr ⟨h3, h4⟩
    | none => trivial
  | none =>
    cases hb : tsE b with
    | some y =>
      rw [ha, hb] at h
      simp only [] at h
      rcases (Prod.Lex.le_iff _ _).mp h with h1 | ⟨h1, _⟩
      · exact absurd h1 (by norm_num)
      · exact absurd h1 (by norm_num)
    | none =>
      rw [ha, hb] at h
      simp only [] at h
      rcases (Prod.Lex.le_iff _ _).mp h with h1 | ⟨_, h2⟩
      · exact absurd h1 (lt_irrefl 1)
      · rcases (Prod.Lex.le_iff _ _).mp h2 with h3 | ⟨_, h4⟩
        · exact absurd h3 (lt_irrefl _)
        · exact h4

/-- C8: `sort_output` totally orders the catalog with parseable
submission deadlines first (ascending by parsed timestamp, names breaking
ties) and unparseable or empty deadlines trailing in name order; on the
three-record example the deadlines come out `Jan 10 2026`, `Mar 01 2026`,
`""`. -/
theorem C8_sort_order :
    (∀ l : List Entry, (sort_output l).Pairwise sortRelSpec) ∧
      sort_output [recMar, recEmpty, recJan] = [recJan, recMar, recEmpty] := by
  constructor
  · intro l
    have hs : List.Sorted pyKeyRel (sort_output l) := List.sorted_insertionSort pyKeyRel l
    exact List.Pairwise.imp (fun {a b} h => pyKeyRel_imp_spec a b h) hs
  · decide

/-- C10: the ordering stage is a pure permutation — no record is added,
dropped, or modified. -/
theorem C10_sort_permutation (l : List Entry) : (sort_output l).Perm l :=
  List.perm_insertionSort pyKeyRel l

/-! ### Date-normalization totality (C9) -/

/-- C9: `_clean_deadline_human` is total and never raises: non-string and
blank inputs yield `""`; otherwise the noise-stripped string either parses
under one of the five formats and is re-rendered as `"%b %d %Y"`, or is
returned verbatim. -/
theorem C9_clean_deadline_total :
    (∀ xs : List String, clean_deadline_human (vList xs) = "") ∧
      clean_deadline_human vNone = "" ∧
      (∀ s : String, pyStrip s = "" → clean_deadline_human (vStr s) = "") ∧
      (∀ s : String, pyStrip s ≠ "" →
        (∃ d : PyDate, firstParse (cleanNoise s.data) = some d ∧
            clean_deadline_human (vStr s) = strftime_bdY d) ∨
          (firstParse (cleanNoise s.data) = none ∧
            clean_deadline_human (vStr s) = ⟨cleanNoise s.data⟩)) := by
  refine ⟨fun xs => rfl, rfl, ?_, ?_⟩
  · intro s h
    unfold clean_deadline_human
    dsimp only
    rw [if_pos h]
  · intro s h
    unfold clean_deadline_human
    dsimp only
    rw [if_neg h]
    cases hf : firstParse (cleanNoise s.data) with
    | some d =>
      left
      exact ⟨d, rfl, rfl⟩
    | none =>
      right
      exact ⟨rfl, rfl⟩

/-- C9 witness: a noisy but parseable date, cleaned and re-rendered. -/
theorem C9_witness :
    pyStrip "Jan 5, 2026 (AoE)" ≠ "" ∧
      ((∃ d : PyDate, firstParse (cleanNoise "Jan 5, 2026 (AoE)".data) = some d ∧
          clean_deadline_human (vStr "Jan 5, 2026 (AoE)") = strftime_bdY d) ∨
        (firstParse (cleanNoise "Jan 5, 2026 (AoE)".data) = none ∧
          clean_deadline_human (vStr "Jan 5, 2026 (AoE)") =
            ⟨cleanNoise "Jan 5, 2026 (AoE)".data⟩)) :=
  ⟨by decide, C9_clean_deadline_total.2.2.2 "Jan 5, 2026 (AoE)" (by decide)⟩

end ConfTrack
